import Mathlib

/-!
Shallow embedding of the CSES "Apartments" solutions in
`src/Apartments_shot_1.cpp` and `src/temp/Apartments_shot_1.cpp`.

Both programs read `n m k`, then `n` applicant values and `m` apartment
values, sort both arrays ascending, and run a two-pointer sweep counting
greedy matches with tolerance `k`.  We model the value arrays as
`List Int`, the sort as an ascending sort, and each file's sweep loop as
a recursive function on the two (sorted) lists; the printed integer is
the returned `Nat`.
-/

namespace Apartments

/-- `sort(v.begin(), v.end())`: ascending sort of the values. -/
def sortInts (l : List Int) : List Int := List.insertionSort (· ≤ ·) l

/-- The two-pointer loop of `src/Apartments_shot_1.cpp` (lines 13-23):
while both lists are nonempty, if `abs(a[i] - b[j]) <= k` count a match
and advance both, else if `a[i] - b[j] > k` advance `j`, else advance `i`. -/
def sweep1 (k : Int) : List Int → List Int → Nat
  | [], _ => 0
  | _ :: _, [] => 0
  | x :: xs, y :: ys =>
    if |x - y| ≤ k then sweep1 k xs ys + 1
    else if x - y > k then sweep1 k (x :: xs) ys
    else sweep1 k xs (y :: ys)
termination_by a b => a.length + b.length
decreasing_by all_goals (simp; try omega)

/-- The two-pointer loop of `src/temp/Apartments_shot_1.cpp` (lines 27-37):
while both lists are nonempty, if `abs(applicants[i] - apartments[j]) <= k`
count a match and advance both, else if `applicants[i] < apartments[j]`
advance `i`, else advance `j`. -/
def sweep2 (k : Int) : List Int → List Int → Nat
  | [], _ => 0
  | _ :: _, [] => 0
  | x :: xs, y :: ys =>
    if |x - y| ≤ k then sweep2 k xs ys + 1
    else if x < y then sweep2 k xs (y :: ys)
    else sweep2 k (x :: xs) ys
termination_by a b => a.length + b.length
decreasing_by all_goals (simp; try omega)

/-- `src/Apartments_shot_1.cpp` as a function from the parsed input
(tolerance and the two value lists) to the printed integer. -/
def program1 (k : Int) (a b : List Int) : Nat :=
  sweep1 k (sortInts a) (sortInts b)

/-- `src/temp/Apartments_shot_1.cpp` as a function from the parsed input
(tolerance and the two value lists) to the printed integer. -/
def program2 (k : Int) (a b : List Int) : Nat :=
  sweep2 k (sortInts a) (sortInts b)

/-- The sweep loop of `src/temp/Apartments_shot_1.cpp` instrumented with a
fuel bound: each recursive call consumes one unit of fuel, one per loop
iteration; `none` means the loop did not finish within the given number of
iterations. -/
def sweepFuel (k : Int) : Nat → List Int → List Int → Option Nat
  | _, [], _ => some 0
  | _, _ :: _, [] => some 0
  | 0, _ :: _, _ :: _ => none
  | fuel + 1, x :: xs, y :: ys =>
    if |x - y| ≤ k then (sweepFuel k fuel xs ys).map (· + 1)
    else if x < y then sweepFuel k fuel xs (y :: ys)
    else sweepFuel k fuel (x :: xs) ys

/-- A matching between the applicant multiset `a` and the apartment
multiset `b` with tolerance `k`: a multiset of (applicant value,
apartment value) pairs whose first components are drawn from `a` without
repetition, whose second components are drawn from `b` without
repetition, and whose two components differ by at most `k` in absolute
value.  (Indices with multiplicity are modelled by sub-multisets.) -/
def IsMatching (k : Int) (a b : Multiset Int) (M : Multiset (Int × Int)) : Prop :=
  M.map Prod.fst ≤ a ∧ M.map Prod.snd ≤ b ∧ ∀ p ∈ M, |p.1 - p.2| ≤ k

/-- The set of cardinalities achieved by matchings of `a` and `b`. -/
def matchCards (k : Int) (a b : List Int) : Set ℕ :=
  {c : ℕ | ∃ M : Multiset (Int × Int), IsMatching k (↑a) (↑b) M ∧ Multiset.card M = c}

/-- Wrap an integer into the range of a 32-bit two's-complement `int`. -/
def wrap32 (x : Int) : Int := (x + 2 ^ 31) % 2 ^ 32 - 2 ^ 31

/-- `a[i] - b[j]` as computed on 32-bit `int`s: mathematical difference
reduced modulo 2^32 into the representable range. -/
def sub32 (x y : Int) : Int := wrap32 (x - y)

/-- `abs` on a 32-bit `int`: the mathematical absolute value wrapped back
into the representable range (the wrap only matters at `-2^31`). -/
def abs32 (x : Int) : Int := wrap32 |x|

/-- The match test `abs(a[i] - b[j]) <= k` as computed on 32-bit `int`s. -/
def test32 (k x y : Int) : Prop := abs32 (sub32 x y) ≤ k

/-- Strong induction principle following the two-pointer sweep: the loop
body may recurse after dropping the head of either list or of both. -/
theorem twoList_ind (P : List Int → List Int → Prop)
    (h1 : ∀ b, P [] b) (h2 : ∀ x xs, P (x :: xs) [])
    (h3 : ∀ x xs y ys, P xs ys → P xs (y :: ys) → P (x :: xs) ys →
      P (x :: xs) (y :: ys)) :
    ∀ a b, P a b := by
  have key : ∀ N a b, a.length + b.length ≤ N → P a b := by
    intro N
    induction N with
    | zero =>
      intro a b h
      cases a with
      | nil => exact h1 b
      | cons x xs => simp at h
    | succ n ih =>
      intro a b h
      cases a with
      | nil => exact h1 b
      | cons x xs =>
        cases b with
        | nil => exact h2 x xs
        | cons y ys =>
          simp only [List.length_cons] at h
          exact h3 x xs y ys (ih xs ys (by omega))
            (ih xs (y :: ys) (by simp only [List.length_cons]; omega))
            (ih (x :: xs) ys (by simp only [List.length_cons]; omega))
  intro a b
  exact key (a.length + b.length) a b le_rfl

/-- With an empty apartment list the sweep of file 1 counts nothing. -/
theorem sweep1_nil_right (k : Int) (a : List Int) : sweep1 k a [] = 0 := by
  cases a <;> simp [sweep1]

/-- With an empty apartment list the sweep of the temp file counts nothing. -/
theorem sweep2_nil_right (k : Int) (a : List Int) : sweep2 k a [] = 0 := by
  cases a <;> simp [sweep2]

/-- With a negative tolerance no pair ever satisfies the match test, so the
sweep of file 1 counts nothing. -/
theorem sweep1_of_neg {k : Int} (hk : k < 0) : ∀ a b, sweep1 k a b = 0 := by
  refine twoList_ind _ (fun b => by simp [sweep1]) (fun x xs => by simp [sweep1]) ?_
  intro x xs y ys _ ih2 ih3
  have hc : ¬|x - y| ≤ k := by
    have := abs_nonneg (x - y)
    omega
  by_cases hgt : x - y > k <;> simp [sweep1, hc, hgt, ih2, ih3]

/-- With a negative tolerance no pair ever satisfies the match test, so the
sweep of the temp file counts nothing. -/
theorem sweep2_of_neg {k : Int} (hk : k < 0) : ∀ a b, sweep2 k a b = 0 := by
  refine twoList_ind _ (fun b => by simp [sweep2]) (fun x xs => by simp [sweep2]) ?_
  intro x xs y ys _ ih2 ih3
  have hc : ¬|x - y| ≤ k := by
    have := abs_nonneg (x - y)
    omega
  by_cases hlt : x < y <;> simp [sweep2, hc, hlt, ih2, ih3]

/-- The two files' sweep loops agree on all inputs: for `k ≥ 0` the failed
match test forces the two else-branch conditions to pick the same pointer,
and for `k < 0` both loops count nothing. -/
theorem sweep1_eq_sweep2 (k : Int) : ∀ a b, sweep1 k a b = sweep2 k a b := by
  rcases le_or_lt 0 k with hk | hk
  · refine twoList_ind _ (fun b => by simp [sweep1, sweep2])
      (fun x xs => by simp [sweep1, sweep2]) ?_
    intro x xs y ys ih1 ih2 ih3
    by_cases hc : |x - y| ≤ k
    · simp [sweep1, sweep2, hc, ih1]
    · by_cases hlt : x < y
      · have hgt : ¬x - y > k := by
          rcases abs_cases (x - y) with ⟨he, _⟩ | ⟨he, _⟩ <;> omega
        simp [sweep1, sweep2, hc, hlt, hgt, ih2]
      · have hgt : x - y > k := by
          rcases abs_cases (x - y) with ⟨he, _⟩ | ⟨he, _⟩ <;> rw [he] at hc <;> omega
        simp [sweep1, sweep2, hc, hlt, hgt, ih3]
  · intro a b
    rw [sweep1_of_neg hk, sweep2_of_neg hk]

/-- The two programs agree: equal sweeps on the equally sorted lists. -/
theorem program1_eq_program2 (k : Int) (a b : List Int) :
    program1 k a b = program2 k a b :=
  sweep1_eq_sweep2 k (sortInts a) (sortInts b)

/-- The sweep counts at most one match per element consumed from either
list, so its result is bounded by both lengths. -/
theorem sweep2_le_min (k : Int) :
    ∀ a b : List Int, sweep2 k a b ≤ min a.length b.length := by
  refine twoList_ind _ (fun b => by simp [sweep2]) (fun x xs => by simp [sweep2]) ?_
  intro x xs y ys ih1 ih2 ih3
  by_cases hc : |x - y| ≤ k
  · simp only [sweep2, hc, if_true, List.length_cons]
    omega
  · by_cases hlt : x < y <;>
      simp only [sweep2, hc, hlt, if_true, if_false, List.length_cons] <;>
      simp only [List.length_cons] at ih2 ih3 <;>
      omega

/-- Given at least `|a| + |b|` units of fuel, the fueled sweep terminates
and returns the same count as the loop. -/
theorem sweepFuel_eq (k : Int) :
    ∀ fuel (a b : List Int), a.length + b.length ≤ fuel →
      sweepFuel k fuel a b = some (sweep2 k a b) := by
  intro fuel
  induction fuel with
  | zero =>
    intro a b h
    cases a with
    | nil => simp [sweepFuel, sweep2]
    | cons x xs =>
      cases b with
      | nil => simp [sweepFuel, sweep2]
      | cons y ys => simp at h
  | succ n ih =>
    intro a b h
    cases a with
    | nil => simp [sweepFuel, sweep2]
    | cons x xs =>
      cases b with
      | nil => simp [sweepFuel, sweep2]
      | cons y ys =>
        simp only [List.length_cons] at h
        by_cases hc : |x - y| ≤ k
        · simp [sweepFuel, sweep2, hc, ih xs ys (by omega)]
        · by_cases hlt : x < y <;>
            simp [sweepFuel, sweep2, hc, hlt,
              ih xs (y :: ys) (by simp only [List.length_cons]; omega),
              ih (x :: xs) ys (by simp only [List.length_cons]; omega)]

/-- The tail of a list is a sub-multiset of the whole list. -/
theorem coe_tail_le (x : Int) (xs : List Int) :
    (↑xs : Multiset Int) ≤ ↑(x :: xs) := by
  rw [← Multiset.cons_coe]
  exact Multiset.le_cons_self _ x

/-- A sub-multiset of `x :: xs` avoiding `x` is a sub-multiset of `xs`. -/
theorem le_tail_of_not_mem {x : Int} {xs : List Int} {s : Multiset Int}
    (hx : x ∉ s) (h : s ≤ ↑(x :: xs)) : s ≤ ↑xs := by
  rw [← Multiset.cons_coe] at h
  exact (Multiset.le_cons_of_not_mem hx).mp h

/-- The head of an ascending-sorted list bounds every member from below. -/
theorem sorted_head_le {x z : Int} {xs : List Int}
    (hs : List.Sorted (· ≤ ·) (x :: xs))
    (hz : z ∈ (↑(x :: xs) : Multiset Int)) : x ≤ z := by
  rcases List.mem_cons.mp (Multiset.mem_coe.mp hz) with h | h
  · exact le_of_eq h.symm
  · exact List.rel_of_sorted_cons hs z h

/-- A matching stays a matching when both value pools grow. -/
theorem IsMatching.mono {k : Int} {a a' b b' : Multiset Int}
    {M : Multiset (Int × Int)} (h : IsMatching k a b M)
    (ha : a ≤ a') (hb : b ≤ b') : IsMatching k a' b' M :=
  ⟨h.1.trans ha, h.2.1.trans hb, h.2.2⟩

/-- The greedy sweep of the temp file realizes its count: there is a
matching of exactly that cardinality. -/
theorem exists_greedy_matching (k : Int) :
    ∀ a b : List Int, ∃ M : Multiset (Int × Int),
      IsMatching k (↑a) (↑b) M ∧ Multiset.card M = sweep2 k a b := by
  refine twoList_ind _ ?_ ?_ ?_
  · intro b
    exact ⟨0, by simp [IsMatching], by simp [sweep2]⟩
  · intro x xs
    exact ⟨0, by simp [IsMatching], by simp [sweep2]⟩
  · intro x xs y ys ih1 ih2 ih3
    by_cases hc : |x - y| ≤ k
    · obtain ⟨M, hM, hcard⟩ := ih1
      refine ⟨(x, y) ::ₘ M, ⟨?_, ?_, ?_⟩, ?_⟩
      · rw [Multiset.map_cons, ← Multiset.cons_coe]
        exact Multiset.cons_le_cons x hM.1
      · rw [Multiset.map_cons, ← Multiset.cons_coe]
        exact Multiset.cons_le_cons y hM.2.1
      · intro p hp
        rcases Multiset.mem_cons.mp hp with h | h
        · subst h
          exact hc
        · exact hM.2.2 p h
      · simp only [Multiset.card_cons, hcard, sweep2, hc, if_true]
    · by_cases hlt : x < y
      · obtain ⟨M, hM, hcard⟩ := ih2
        exact ⟨M, hM.mono (coe_tail_le x xs) le_rfl,
          by simp only [hcard, sweep2, hc, hlt, if_true, if_false]⟩
      · obtain ⟨M, hM, hcard⟩ := ih3
        exact ⟨M, hM.mono le_rfl (coe_tail_le y ys),
          by simp only [hcard, sweep2, hc, hlt, if_false]⟩

/-- Exchange argument at the heads of two sorted lists: any matching of
`x :: xs` with `y :: ys` can lose at most one pair and become a matching
of `xs` with `ys` (remove the pair using `x`, the pair using `y`, and if
those are two distinct pairs rejoin their free endpoints, which stay
within tolerance because `x` and `y` are the minima). -/
theorem head_reduction (k x y : Int) (xs ys : List Int)
    (hsa : List.Sorted (· ≤ ·) (x :: xs)) (hsb : List.Sorted (· ≤ ·) (y :: ys))
    (M : Multiset (Int × Int)) (hM : IsMatching k (↑(x :: xs)) (↑(y :: ys)) M) :
    ∃ N : Multiset (Int × Int), IsMatching k (↑xs) (↑ys) N ∧
      Multiset.card M ≤ Multiset.card N + 1 := by
  obtain ⟨hf, hsnd, hcomp⟩ := hM
  by_cases hxf : ∃ p ∈ M, p.1 = x
  · obtain ⟨p, hpM, hpx⟩ := hxf
    have hMp : M = p ::ₘ M.erase p := (Multiset.cons_erase hpM).symm
    by_cases hyq : ∃ q ∈ M.erase p, q.2 = y
    · obtain ⟨q, hqMe, hqy⟩ := hyq
      have hqM : q ∈ M := Multiset.mem_of_le (Multiset.erase_le p M) hqMe
      have hMe : M.erase p = q ::ₘ (M.erase p).erase q :=
        (Multiset.cons_erase hqMe).symm
      have hMpq : M = p ::ₘ q ::ₘ (M.erase p).erase q := by
        rw [Multiset.cons_erase hqMe, Multiset.cons_erase hpM]
      have hx2 : x ≤ q.1 :=
        sorted_head_le hsa (Multiset.mem_of_le hf (Multiset.mem_map_of_mem Prod.fst hqM))
      have hy2 : y ≤ p.2 :=
        sorted_head_le hsb (Multiset.mem_of_le hsnd (Multiset.mem_map_of_mem Prod.snd hpM))
      have hcp : |x - p.2| ≤ k := hpx ▸ hcomp p hpM
      have hcq : |q.1 - y| ≤ k := hqy ▸ hcomp q hqM
      rw [hMpq, Multiset.map_cons, Multiset.map_cons, hpx, ← Multiset.cons_coe] at hf
      have hfst : q.1 ::ₘ ((M.erase p).erase q).map Prod.fst ≤ ↑xs :=
        (Multiset.cons_le_cons_iff x).mp hf
      rw [hMpq, Multiset.map_cons, Multiset.map_cons, hqy, Multiset.cons_swap,
        ← Multiset.cons_coe] at hsnd
      have hsnd2 : p.2 ::ₘ ((M.erase p).erase q).map Prod.snd ≤ ↑ys :=
        (Multiset.cons_le_cons_iff y).mp hsnd
      refine ⟨(q.1, p.2) ::ₘ (M.erase p).erase q, ⟨?_, ?_, ?_⟩, ?_⟩
      · rw [Multiset.map_cons]
        exact hfst
      · rw [Multiset.map_cons]
        exact hsnd2
      · intro r hr
        rcases Multiset.mem_cons.mp hr with h | h
        · subst h
          rw [abs_le] at hcp hcq ⊢
          constructor <;> omega
        · exact hcomp r (Multiset.mem_of_le
            ((Multiset.erase_le q _).trans (Multiset.erase_le p M)) h)
      · have hcard := congrArg Multiset.card hMpq
        simp only [Multiset.card_cons] at hcard
        simp only [Multiset.card_cons]
        omega
    · refine ⟨M.erase p, ⟨?_, ?_, ?_⟩, ?_⟩
      · rw [hMp, Multiset.map_cons, hpx, ← Multiset.cons_coe] at hf
        exact (Multiset.cons_le_cons_iff x).mp hf
      · have hy : y ∉ (M.erase p).map Prod.snd := by
          intro hy
          obtain ⟨q, hq, hq2⟩ := Multiset.mem_map.mp hy
          exact hyq ⟨q, hq, hq2⟩
        exact le_tail_of_not_mem hy
          ((Multiset.map_le_map (Multiset.erase_le p M)).trans hsnd)
      · intro r hr
        exact hcomp r (Multiset.mem_of_le (Multiset.erase_le p M) hr)
      · have hcard := congrArg Multiset.card hMp
        simp only [Multiset.card_cons] at hcard
        omega
  · have hxf2 : x ∉ M.map Prod.fst := by
      intro hx
      obtain ⟨p, hp, hpx⟩ := Multiset.mem_map.mp hx
      exact hxf ⟨p, hp, hpx⟩
    have hf2 : M.map Prod.fst ≤ ↑xs := le_tail_of_not_mem hxf2 hf
    by_cases hyq : ∃ q ∈ M, q.2 = y
    · obtain ⟨q, hqM, hqy⟩ := hyq
      have hMq : M = q ::ₘ M.erase q := (Multiset.cons_erase hqM).symm
      refine ⟨M.erase q, ⟨?_, ?_, ?_⟩, ?_⟩
      · exact (Multiset.map_le_map (Multiset.erase_le q M)).trans hf2
      · rw [hMq, Multiset.map_cons, hqy, ← Multiset.cons_coe] at hsnd
        exact (Multiset.cons_le_cons_iff y).mp hsnd
      · intro r hr
        exact hcomp r (Multiset.mem_of_le (Multiset.erase_le q M) hr)
      · have hcard := congrArg Multiset.card hMq
        simp only [Multiset.card_cons] at hcard
        omega
    · have hyq2 : y ∉ M.map Prod.snd := by
        intro hy
        obtain ⟨q, hq, hq2⟩ := Multiset.mem_map.mp hy
        exact hyq ⟨q, hq, hq2⟩
      exact ⟨M, ⟨hf2, le_tail_of_not_mem hyq2 hsnd, hcomp⟩, Nat.le_succ _⟩

/-- When the applicant head is more than `k` below the apartment head, no
matching of the sorted lists can use it: every apartment value is at least
`y`, hence out of tolerance. -/
theorem fst_head_unused {k x y : Int} {xs ys : List Int} {M : Multiset (Int × Int)}
    (hsb : List.Sorted (· ≤ ·) (y :: ys)) (hgap : k < y - x)
    (hM : IsMatching k (↑(x :: xs)) (↑(y :: ys)) M) :
    IsMatching k (↑xs) (↑(y :: ys)) M := by
  obtain ⟨hf, hsnd, hcomp⟩ := hM
  have hx : x ∉ M.map Prod.fst := by
    intro hx
    obtain ⟨p, hpM, hpx⟩ := Multiset.mem_map.mp hx
    have h2 : y ≤ p.2 :=
      sorted_head_le hsb (Multiset.mem_of_le hsnd (Multiset.mem_map_of_mem Prod.snd hpM))
    have hcp := hcomp p hpM
    rw [hpx] at hcp
    rcases abs_cases (x - p.2) with ⟨he, _⟩ | ⟨he, _⟩ <;> omega
  exact ⟨le_tail_of_not_mem hx hf, hsnd, hcomp⟩

/-- When the apartment head is more than `k` below the applicant head, no
matching of the sorted lists can use it: every applicant value is at least
`x`, hence out of tolerance. -/
theorem snd_head_unused {k x y : Int} {xs ys : List Int} {M : Multiset (Int × Int)}
    (hsa : List.Sorted (· ≤ ·) (x :: xs)) (hgap : k < x - y)
    (hM : IsMatching k (↑(x :: xs)) (↑(y :: ys)) M) :
    IsMatching k (↑(x :: xs)) (↑ys) M := by
  obtain ⟨hf, hsnd, hcomp⟩ := hM
  have hy : y ∉ M.map Prod.snd := by
    intro hy
    obtain ⟨p, hpM, hpy⟩ := Multiset.mem_map.mp hy
    have h2 : x ≤ p.1 :=
      sorted_head_le hsa (Multiset.mem_of_le hf (Multiset.mem_map_of_mem Prod.fst hpM))
    have hcp := hcomp p hpM
    rw [hpy] at hcp
    rcases abs_cases (p.1 - y) with ⟨he, _⟩ | ⟨he, _⟩ <;> omega
  exact ⟨hf, le_tail_of_not_mem hy hsnd, hcomp⟩

/-- Optimality of the greedy sweep on sorted lists: no matching beats the
count returned by the two-pointer loop. -/
theorem matching_card_le_sweep2 (k : Int) :
    ∀ a b : List Int, List.Sorted (· ≤ ·) a → List.Sorted (· ≤ ·) b →
      ∀ M : Multiset (Int × Int), IsMatching k (↑a) (↑b) M →
        Multiset.card M ≤ sweep2 k a b := by
  refine twoList_ind (fun a b => List.Sorted (· ≤ ·) a → List.Sorted (· ≤ ·) b →
    ∀ M : Multiset (Int × Int), IsMatching k (↑a) (↑b) M →
      Multiset.card M ≤ sweep2 k a b) ?_ ?_ ?_
  · intro b _ _ M hM
    have hM0 : M = 0 := by simpa using hM.1
    simp [hM0]
  · intro x xs _ _ M hM
    have hM0 : M = 0 := by simpa using hM.2.1
    simp [hM0]
  · intro x xs y ys ih1 ih2 ih3 hsa hsb M hM
    by_cases hc : |x - y| ≤ k
    · obtain ⟨N, hN, hcard⟩ := head_reduction k x y xs ys hsa hsb M hM
      have hle := ih1 hsa.of_cons hsb.of_cons N hN
      simp only [sweep2, hc, if_true]
      omega
    · by_cases hlt : x < y
      · have hgap : k < y - x := by
          rcases abs_cases (x - y) with ⟨he, _⟩ | ⟨he, _⟩ <;> rw [he] at hc <;> omega
        have hle := ih2 hsa.of_cons hsb M (fst_head_unused hsb hgap hM)
        simpa only [sweep2, hc, hlt, if_true, if_false] using hle
      · have hgap : k < x - y := by
          rcases abs_cases (x - y) with ⟨he, _⟩ | ⟨he, _⟩ <;> rw [he] at hc <;> omega
        have hle := ih3 hsa hsb.of_cons M (snd_head_unused hsa hgap hM)
        simpa only [sweep2, hc, hlt, if_false] using hle

/-- Sorting does not change the multiset of values. -/
theorem coe_sortInts (l : List Int) : (↑(sortInts l) : Multiset Int) = ↑l :=
  Multiset.coe_eq_coe.mpr (List.perm_insertionSort _ l)

/-- The sort used by both programs produces an ascending list. -/
theorem sorted_sortInts (l : List Int) : List.Sorted (· ≤ ·) (sortInts l) :=
  List.sorted_insertionSort _ l

/-- Upper half of optimality, at program level: every matching of the raw
input lists is counted by at most the printed number. -/
theorem matching_card_le_program2 (k : Int) (a b : List Int)
    (M : Multiset (Int × Int)) (hM : IsMatching k (↑a) (↑b) M) :
    Multiset.card M ≤ program2 k a b := by
  apply matching_card_le_sweep2 k (sortInts a) (sortInts b)
    (sorted_sortInts a) (sorted_sortInts b)
  rwa [coe_sortInts, coe_sortInts]

/-- Lower half of optimality, at program level: the printed number is
realized by an actual matching of the raw input lists. -/
theorem exists_matching_program2 (k : Int) (a b : List Int) :
    ∃ M : Multiset (Int × Int),
      IsMatching k (↑a) (↑b) M ∧ Multiset.card M = program2 k a b := by
  obtain ⟨M, hM, hc⟩ := exists_greedy_matching k (sortInts a) (sortInts b)
  rw [coe_sortInts, coe_sortInts] at hM
  exact ⟨M, hM, hc⟩

/-- The printed count is the greatest cardinality of any matching. -/
theorem program2_isGreatest (k : Int) (a b : List Int) :
    IsGreatest (matchCards k a b) (program2 k a b) := by
  constructor
  · exact exists_matching_program2 k a b
  · rintro c ⟨M, hM, rfl⟩
    exact matching_card_le_program2 k a b M hM

/-- Swapping every pair turns a matching of `(a, b)` into one of `(b, a)`. -/
theorem IsMatching.swap {k : Int} {a b : Multiset Int} {M : Multiset (Int × Int)}
    (h : IsMatching k a b M) : IsMatching k b a (M.map Prod.swap) := by
  obtain ⟨hf, hs, hc⟩ := h
  refine ⟨?_, ?_, ?_⟩
  · rw [Multiset.map_map]
    have he : M.map (Prod.fst ∘ Prod.swap) = M.map Prod.snd :=
      Multiset.map_congr rfl (fun p _ => rfl)
    rw [he]
    exact hs
  · rw [Multiset.map_map]
    have he : M.map (Prod.snd ∘ Prod.swap) = M.map Prod.fst :=
      Multiset.map_congr rfl (fun p _ => rfl)
    rw [he]
    exact hf
  · intro p hp
    obtain ⟨q, hq, rfl⟩ := Multiset.mem_map.mp hp
    show |q.2 - q.1| ≤ k
    rw [abs_sub_comm]
    exact hc q hq

/-- Exchanging the roles of the two lists does not change the count. -/
theorem program2_swap (k : Int) (a b : List Int) :
    program2 k a b = program2 k b a := by
  have half : ∀ u v : List Int, program2 k u v ≤ program2 k v u := by
    intro u v
    obtain ⟨M, hM, hc⟩ := exists_matching_program2 k u v
    calc program2 k u v = Multiset.card M := hc.symm
      _ = Multiset.card (M.map Prod.swap) := (Multiset.card_map _ _).symm
      _ ≤ program2 k v u := matching_card_le_program2 k v u _ hM.swap
  exact le_antisymm (half a b) (half b a)

/-- Values already inside the 32-bit range are fixed by the wrap. -/
theorem wrap32_eq_self {z : Int} (h1 : -(2 ^ 31) ≤ z) (h2 : z < 2 ^ 31) :
    wrap32 z = z := by
  have e31 : (2 : Int) ^ 31 = 2147483648 := by norm_num
  have e32 : (2 : Int) ^ 32 = 4294967296 := by norm_num
  unfold wrap32
  rw [e31, e32]
  rw [e31] at h1 h2
  omega

/-- An empty applicant list makes the sweep of file 1 count nothing. -/
theorem sweep1_nil_left (k : Int) (b : List Int) : sweep1 k [] b = 0 := by
  simp [sweep1]

/-- An empty applicant list makes the sweep of the temp file count nothing. -/
theorem sweep2_nil_left (k : Int) (b : List Int) : sweep2 k [] b = 0 := by
  simp [sweep2]

/-- Sorting preserves the number of values. -/
theorem length_sortInts (l : List Int) : (sortInts l).length = l.length :=
  List.length_insertionSort _ l

/-- C1: for every input with `k ≥ 0`, the integer printed by either source
file is the maximum cardinality of a set of applicant-apartment pairs in
which each pair's two values differ in absolute value by at most `k` and no
applicant and no apartment occurs in more than one pair. -/
theorem apartments_count_is_max_matching (k : Int) (a b : List Int)
    (_hk : 0 ≤ k) :
    IsGreatest (matchCards k a b) (program1 k a b) ∧
      IsGreatest (matchCards k a b) (program2 k a b) := by
  have h2 := program2_isGreatest k a b
  exact ⟨(program1_eq_program2 k a b) ▸ h2, h2⟩

/-- Witness for C1 at `k = 1`, applicants `[1, 5]`, apartments `[2, 6]`. -/
theorem apartments_count_is_max_matching_witness :
    (0 : Int) ≤ 1 ∧
      (IsGreatest (matchCards 1 [1, 5] [2, 6]) (program1 1 [1, 5] [2, 6]) ∧
        IsGreatest (matchCards 1 [1, 5] [2, 6]) (program2 1 [1, 5] [2, 6])) :=
  ⟨by decide, apartments_count_is_max_matching 1 [1, 5] [2, 6] (by decide)⟩

/-- C2: the two source files compute the same printed count on every input;
for `k ≥ 0` a failed match test makes the two else-branch conditions pick
the same pointer, and for `k < 0` neither loop ever counts a match. -/
theorem files_extensionally_equal (k : Int) (a b : List Int) :
    program1 k a b = program2 k a b :=
  program1_eq_program2 k a b

/-- C3: with fixed input lists, raising the tolerance from `k1` to `k2`
never decreases the printed count. -/
theorem count_monotone_in_tolerance (k1 k2 : Int) (a b : List Int)
    (_hk1 : 0 ≤ k1) (h12 : k1 ≤ k2) :
    program2 k1 a b ≤ program2 k2 a b := by
  obtain ⟨M, hM, hc⟩ := exists_matching_program2 k1 a b
  have hM2 : IsMatching k2 (↑a) (↑b) M :=
    ⟨hM.1, hM.2.1, fun p hp => le_trans (hM.2.2 p hp) h12⟩
  calc program2 k1 a b = Multiset.card M := hc.symm
    _ ≤ program2 k2 a b := matching_card_le_program2 k2 a b M hM2

/-- Witness for C3 at `k1 = 0`, `k2 = 1`, lists `[1]` and `[2]`. -/
theorem count_monotone_in_tolerance_witness :
    (0 : Int) ≤ 0 ∧ (0 : Int) ≤ 1 ∧
      program2 0 [1] [2] ≤ program2 1 [1] [2] :=
  ⟨by decide, by decide, count_monotone_in_tolerance 0 1 [1] [2] (by decide) (by decide)⟩

/-- C4: the printed count of either file never exceeds the number of
applicants nor the number of apartments. -/
theorem count_le_min_lengths (k : Int) (a b : List Int) :
    program1 k a b ≤ min a.length b.length ∧
      program2 k a b ≤ min a.length b.length := by
  have h2 : program2 k a b ≤ min a.length b.length := by
    have h := sweep2_le_min k (sortInts a) (sortInts b)
    rw [length_sortInts, length_sortInts] at h
    exact h
  exact ⟨(program1_eq_program2 k a b) ▸ h2, h2⟩

/-- C5: for `k ≥ 0`, exchanging which list plays applicants and which plays
apartments leaves the printed count unchanged. -/
theorem count_symmetric (k : Int) (a b : List Int) (_hk : 0 ≤ k) :
    program2 k a b = program2 k b a :=
  program2_swap k a b

/-- Witness for C5 at `k = 1`, lists `[1, 5]` and `[2, 6]`. -/
theorem count_symmetric_witness :
    (0 : Int) ≤ 1 ∧ program2 1 [1, 5] [2, 6] = program2 1 [2, 6] [1, 5] :=
  ⟨by decide, count_symmetric 1 [1, 5] [2, 6] (by decide)⟩

/-- C6: permuting the applicant values or the apartment values, in either
file, leaves the printed count unchanged, because both lists are sorted
ascending before the sweep. -/
theorem count_permutation_invariant (k : Int) (a a' b b' : List Int)
    (ha : a.Perm a') (hb : b.Perm b') :
    program1 k a b = program1 k a' b' ∧ program2 k a b = program2 k a' b' := by
  have hsa : sortInts a = sortInts a' :=
    List.eq_of_perm_of_sorted
      ((List.perm_insertionSort _ a).trans (ha.trans (List.perm_insertionSort _ a').symm))
      (sorted_sortInts a) (sorted_sortInts a')
  have hsb : sortInts b = sortInts b' :=
    List.eq_of_perm_of_sorted
      ((List.perm_insertionSort _ b).trans (hb.trans (List.perm_insertionSort _ b').symm))
      (sorted_sortInts b) (sorted_sortInts b')
  constructor
  · show sweep1 k (sortInts a) (sortInts b) = sweep1 k (sortInts a') (sortInts b')
    rw [hsa, hsb]
  · show sweep2 k (sortInts a) (sortInts b) = sweep2 k (sortInts a') (sortInts b')
    rw [hsa, hsb]

/-- Witness for C6: reversing `[2, 1]` to `[1, 2]` with apartments `[3]`. -/
theorem count_permutation_invariant_witness :
    ([2, 1] : List Int).Perm [1, 2] ∧ ([3] : List Int).Perm [3] ∧
      (program1 0 [2, 1] [3] = program1 0 [1, 2] [3] ∧
        program2 0 [2, 1] [3] = program2 0 [1, 2] [3]) :=
  ⟨List.Perm.swap 1 2 [], List.Perm.refl [3],
    count_permutation_invariant 0 [2, 1] [1, 2] [3] [3]
      (List.Perm.swap 1 2 []) (List.Perm.refl [3])⟩

/-- C7: the two-pointer sweep finishes within `n + m` loop iterations (the
fueled loop with exactly `n + m` units of fuel already reaches the exit
condition and returns the loop's count), and both files' loops agree. -/
theorem sweep_terminates_within_fuel (k : Int) (a b : List Int) :
    sweepFuel k (a.length + b.length) a b = some (sweep2 k a b) ∧
      sweep1 k a b = sweep2 k a b :=
  ⟨sweepFuel_eq k (a.length + b.length) a b le_rfl, sweep1_eq_sweep2 k a b⟩

/-- C8: an empty applicant list or an empty apartment list makes either
file print `0`, for every tolerance. -/
theorem empty_input_gives_zero (k : Int) (a b : List Int) :
    program1 k [] b = 0 ∧ program1 k a [] = 0 ∧
      program2 k [] b = 0 ∧ program2 k a [] = 0 :=
  ⟨sweep1_nil_left k (sortInts b), sweep1_nil_right k (sortInts a),
    sweep2_nil_left k (sortInts b), sweep2_nil_right k (sortInts a)⟩

/-- C9: on applicants `[1, 5]`, apartments `[2, 6]`, tolerance `1`, either
file prints `2`. -/
theorem example_prints_two :
    program2 1 [1, 5] [2, 6] = 2 ∧ program1 1 [1, 5] [2, 6] = 2 := by
  constructor
  · simp [program2, sortInts, sweep2]
  · simp [program1, sortInts, sweep1]

/-- C10: when all values lie in `[-2^30, 2^30 - 1]`, the 32-bit evaluation
of `abs(a[i] - b[j]) <= k` involves no wraparound: the difference is
computed exactly and the comparison agrees with the mathematical test. -/
theorem int32_match_test_exact (k x y : Int)
    (hx1 : -(2 ^ 30) ≤ x) (hx2 : x ≤ 2 ^ 30 - 1)
    (hy1 : -(2 ^ 30) ≤ y) (hy2 : y ≤ 2 ^ 30 - 1) :
    sub32 x y = x - y ∧ (test32 k x y ↔ |x - y| ≤ k) := by
  have e30 : (2 : Int) ^ 30 = 1073741824 := by norm_num
  rw [e30] at hx1 hx2 hy1 hy2
  have hd1 : -(2 ^ 31) ≤ x - y := by norm_num; omega
  have hd2 : x - y < 2 ^ 31 := by norm_num; omega
  have hs : sub32 x y = x - y := wrap32_eq_self hd1 hd2
  have ha1 : -(2 ^ 31) ≤ |x - y| := le_trans (by norm_num) (abs_nonneg _)
  have ha2 : |x - y| < 2 ^ 31 := by
    rcases abs_cases (x - y) with ⟨he, _⟩ | ⟨he, _⟩ <;> rw [he] <;> norm_num <;> omega
  have ha : abs32 (x - y) = |x - y| := wrap32_eq_self ha1 ha2
  refine ⟨hs, ?_⟩
  unfold test32
  rw [hs, ha]

/-- Witness for C10 at `k = 5`, `x = 10`, `y = 1`. -/
theorem int32_match_test_exact_witness :
    -((2 : Int) ^ 30) ≤ 10 ∧ (10 : Int) ≤ 2 ^ 30 - 1 ∧
      -((2 : Int) ^ 30) ≤ 1 ∧ (1 : Int) ≤ 2 ^ 30 - 1 ∧
      (sub32 10 1 = 10 - 1 ∧ (test32 5 10 1 ↔ |(10 : Int) - 1| ≤ 5)) :=
  ⟨by norm_num, by norm_num, by norm_num, by norm_num,
    int32_match_test_exact 5 10 1 (by norm_num) (by norm_num) (by norm_num) (by norm_num)⟩

end Apartments
